import Mathlib

/-!
Verification of the r2-upload-action upload engine (src/index.ts).

The TypeScript source is shallowly embedded:
* byte buffers are lists of bytes (`List Nat`);
* the S3 client is an oracle recording which calls succeed and what they
  return, so that every interleaving of call outcomes can be examined;
* the JS number `fileMB = size / (1024 * 1024)` is modelled in `Rat`:
  for sizes below 2^53 a division by the power of two 1024*1024 is exact
  in IEEE doubles, so the rational model is faithful to the comparison
  the code performs;
* `config.maxTries` (a `parseInt` result, possibly negative) is an `Int`.
-/

namespace R2Upload

/-- The inner `while (buffer.length >= chunkSize)` loop of
`readFixedChunkSize` (src/index.ts:246-249): repeatedly split off
`chunkSize`-length prefixes while the accumulated buffer is at least
`chunkSize` long, returning the emitted chunks and the remaining buffer.
The `0 < c` guard only encodes termination: the source loops forever when
`chunkSize = 0`, and every claim about the reader assumes a positive
chunk size. -/
def drainBuffer (c : Nat) (buf : List Nat) : List (List Nat) × List Nat :=
  if h : 0 < c ∧ c ≤ buf.length then
    let r := drainBuffer c (buf.drop c)
    (buf.take c :: r.1, r.2)
  else
    ([], buf)
termination_by buf.length
decreasing_by simp_wf; omega

theorem drainBuffer_pos {c : Nat} {buf : List Nat} (h : 0 < c ∧ c ≤ buf.length) :
    drainBuffer c buf =
      (buf.take c :: (drainBuffer c (buf.drop c)).1, (drainBuffer c (buf.drop c)).2) := by
  rw [drainBuffer, dif_pos h]

theorem drainBuffer_neg {c : Nat} {buf : List Nat} (h : ¬(0 < c ∧ c ≤ buf.length)) :
    drainBuffer c buf = ([], buf) := by
  rw [drainBuffer, dif_neg h]

/-- The `for await (const chunk of stream)` loop of `readFixedChunkSize`
(src/index.ts:243-254): each incoming stream chunk is appended to the
carried buffer, full chunks are emitted, and after the stream ends the
non-empty remainder is emitted. -/
def readChunksGo (c : Nat) : List (List Nat) → List Nat → List (List Nat)
  | [], buf => if 0 < buf.length then [buf] else []
  | ch :: rest, buf =>
    let r := drainBuffer c (buf ++ ch)
    r.1 ++ readChunksGo c rest r.2

/-- `readFixedChunkSize` (src/index.ts:239-255) on the sequence of chunks
the underlying read stream delivers; `buffer` starts as the empty
`Buffer.alloc(0)`. -/
def readFixedChunkSize (stream : List (List Nat)) (c : Nat) : List (List Nat) :=
  readChunksGo c stream []

/-- Batch form of the chunking: all full `c`-length chunks of `l`,
then the non-empty remainder.  `readFixedChunkSize` is proved equal to
this, which shows the stream-delivery boundaries are invisible. -/
def chunkList (c : Nat) (l : List Nat) : List (List Nat) :=
  (drainBuffer c l).1 ++
    (if 0 < (drainBuffer c l).2.length then [(drainBuffer c l).2] else [])

theorem drainBuffer_flatten (c : Nat) (buf : List Nat) :
    (drainBuffer c buf).1.flatten ++ (drainBuffer c buf).2 = buf := by
  induction buf using drainBuffer.induct c with
  | case1 buf hc ih =>
    rw [drainBuffer_pos hc]
    simp only [List.flatten_cons, List.append_assoc, ih, List.take_append_drop]
  | case2 buf hc =>
    rw [drainBuffer_neg hc]
    simp

theorem drainBuffer_rem_lt (c : Nat) (buf : List Nat) (h : 0 < c) :
    (drainBuffer c buf).2.length < c := by
  induction buf using drainBuffer.induct c with
  | case1 buf hc ih =>
    rw [drainBuffer_pos hc]
    exact ih
  | case2 buf hc =>
    rw [drainBuffer_neg hc]
    push_neg at hc
    exact hc h

theorem drainBuffer_mem_length (c : Nat) (buf : List Nat) :
    ∀ x ∈ (drainBuffer c buf).1, x.length = c := by
  induction buf using drainBuffer.induct c with
  | case1 buf hc ih =>
    rw [drainBuffer_pos hc]
    intro x hx
    rcases List.mem_cons.mp hx with hx | hx
    · subst hx
      rw [List.length_take]
      omega
    · exact ih x hx
  | case2 buf hc =>
    rw [drainBuffer_neg hc]
    simp

theorem drainBuffer_rem_mod (c : Nat) (buf : List Nat) (h : 0 < c) :
    (drainBuffer c buf).2.length = buf.length % c := by
  induction buf using drainBuffer.induct c with
  | case1 buf hc ih =>
    rw [drainBuffer_pos hc]
    rw [ih, List.length_drop, ← Nat.mod_eq_sub_mod hc.2]
  | case2 buf hc =>
    rw [drainBuffer_neg hc]
    push_neg at hc
    exact (Nat.mod_eq_of_lt (hc h)).symm

theorem drainBuffer_append (c : Nat) (a b : List Nat) :
    drainBuffer c (a ++ b) =
      ((drainBuffer c a).1 ++ (drainBuffer c ((drainBuffer c a).2 ++ b)).1,
       (drainBuffer c ((drainBuffer c a).2 ++ b)).2) := by
  induction a using drainBuffer.induct c with
  | case1 a hc ih =>
    have hcab : 0 < c ∧ c ≤ (a ++ b).length := by
      refine ⟨hc.1, ?_⟩
      rw [List.length_append]
      omega
    rw [drainBuffer_pos hcab, drainBuffer_pos hc]
    have htake : (a ++ b).take c = a.take c := by
      rw [List.take_append_eq_append_take, Nat.sub_eq_zero_of_le hc.2]
      simp
    have hdrop : (a ++ b).drop c = a.drop c ++ b := by
      rw [List.drop_append_eq_append_drop, Nat.sub_eq_zero_of_le hc.2]
      simp
    rw [htake, hdrop, ih]
    simp
  | case2 a hc =>
    rw [drainBuffer_neg hc]
    simp

theorem readChunksGo_eq_chunkList (c : Nat) (h : 0 < c) :
    ∀ (stream : List (List Nat)) (buf : List Nat), buf.length < c →
      readChunksGo c stream buf = chunkList c (buf ++ stream.flatten) := by
  intro stream
  induction stream with
  | nil =>
    intro buf hbuf
    have hdb : drainBuffer c buf = ([], buf) := by
      apply drainBuffer_neg
      push_neg
      intro _
      omega
    simp [readChunksGo, chunkList, hdb]
  | cons ch rest ih =>
    intro buf hbuf
    have hrem := drainBuffer_rem_lt c (buf ++ ch) h
    have ihr := ih (drainBuffer c (buf ++ ch)).2 hrem
    have happ := drainBuffer_append c (buf ++ ch) rest.flatten
    simp only [readChunksGo, ihr, chunkList, List.flatten_cons, ← List.append_assoc, happ]

theorem readFixedChunkSize_eq_chunkList (stream : List (List Nat)) (c : Nat)
    (h : 0 < c) :
    readFixedChunkSize stream c = chunkList c stream.flatten := by
  have := readChunksGo_eq_chunkList c h stream [] (by simpa using h)
  simpa [readFixedChunkSize] using this

theorem chunkList_flatten (c : Nat) (l : List Nat) :
    (chunkList c l).flatten = l := by
  unfold chunkList
  by_cases h : 0 < (drainBuffer c l).2.length
  · rw [if_pos h]
    simpa using drainBuffer_flatten c l
  · rw [if_neg h]
    have h2 : (drainBuffer c l).2 = [] := by
      cases hr : (drainBuffer c l).2 with
      | nil => rfl
      | cons x xs => rw [hr] at h; simp at h
    have := drainBuffer_flatten c l
    rw [h2] at this
    simpa using this

theorem chunkList_mem_pos (c : Nat) (l : List Nat) (h : 0 < c) :
    ∀ x ∈ chunkList c l, 0 < x.length := by
  intro x hx
  unfold chunkList at hx
  rcases List.mem_append.mp hx with hx | hx
  · rw [drainBuffer_mem_length c l x hx]
    exact h
  · by_cases hr : 0 < (drainBuffer c l).2.length
    · rw [if_pos hr, List.mem_singleton] at hx
      rw [hx]
      exact hr
    · rw [if_neg hr] at hx
      simp at hx

theorem chunkList_dropLast_length (c : Nat) (l : List Nat) :
    ∀ x ∈ (chunkList c l).dropLast, x.length = c := by
  intro x hx
  unfold chunkList at hx
  by_cases hr : 0 < (drainBuffer c l).2.length
  · rw [if_pos hr, List.dropLast_concat] at hx
    exact drainBuffer_mem_length c l x hx
  · rw [if_neg hr, List.append_nil] at hx
    exact drainBuffer_mem_length c l x ((List.dropLast_sublist _).subset hx)

theorem chunkList_nil (c : Nat) : chunkList c [] = [] := by
  have hdb : drainBuffer c ([] : List Nat) = ([], []) := by
    apply drainBuffer_neg
    push_neg
    intro hc
    simpa using hc
  simp [chunkList, hdb]

theorem chunkList_getLastD (c : Nat) (l : List Nat) (h : 0 < c) (hne : l ≠ []) :
    chunkList c l ≠ [] ∧
      ((chunkList c l).getLastD []).length =
        (if l.length % c = 0 then c else l.length % c) := by
  by_cases hr : 0 < (drainBuffer c l).2.length
  · have hmod := drainBuffer_rem_mod c l h
    have hmod0 : l.length % c ≠ 0 := by omega
    rw [if_neg hmod0]
    unfold chunkList
    rw [if_pos hr]
    constructor
    · simp
    · rw [List.getLastD_concat]
      omega
  · have hrem : (drainBuffer c l).2 = [] := by
      cases hcase : (drainBuffer c l).2 with
      | nil => rfl
      | cons x xs => rw [hcase] at hr; simp at hr
    have hmod := drainBuffer_rem_mod c l h
    rw [hrem] at hmod
    have hmod0 : l.length % c = 0 := by simpa using hmod.symm
    rw [if_pos hmod0]
    have hfl : (drainBuffer c l).1.flatten = l := by
      have := drainBuffer_flatten c l
      rw [hrem] at this
      simpa using this
    have hF : (drainBuffer c l).1 ≠ [] := by
      intro hFnil
      rw [hFnil] at hfl
      exact hne hfl.symm
    have hcl : chunkList c l = (drainBuffer c l).1 := by
      unfold chunkList
      rw [if_neg hr, List.append_nil]
    rw [hcl]
    refine ⟨hF, ?_⟩
    rw [List.getLastD_eq_getLast?, List.getLast?_eq_getLast _ hF]
    exact drainBuffer_mem_length c l _ (List.getLast_mem hF)

/-- C4: for every file content (delivered by the read stream in arbitrary
pieces) and every chunk size `c > 0`, `readFixedChunkSize` yields buffers
whose concatenation reproduces the bytes exactly; every buffer except
possibly the last has length exactly `c`; no empty buffer is yielded (a
zero-byte file yields none); and the last buffer has length `N % c`, or
`c` when `N` is a positive exact multiple of `c`. -/
theorem readFixedChunkSize_spec (stream : List (List Nat)) (c : Nat) (h : 0 < c) :
    (readFixedChunkSize stream c).flatten = stream.flatten ∧
    (∀ b ∈ (readFixedChunkSize stream c).dropLast, b.length = c) ∧
    (∀ b ∈ readFixedChunkSize stream c, 0 < b.length) ∧
    (stream.flatten = [] → readFixedChunkSize stream c = []) ∧
    (stream.flatten ≠ [] →
      readFixedChunkSize stream c ≠ [] ∧
        ((readFixedChunkSize stream c).getLastD []).length =
          (if stream.flatten.length % c = 0 then c
           else stream.flatten.length % c)) := by
  rw [readFixedChunkSize_eq_chunkList stream c h]
  refine ⟨chunkList_flatten c _, chunkList_dropLast_length c _,
    chunkList_mem_pos c _ h, ?_, ?_⟩
  · intro hnil
    rw [hnil]
    exact chunkList_nil c
  · intro hne
    exact chunkList_getLastD c _ h hne

/-- Witness for C4 at a concrete input: the 5-byte file delivered as two
stream pieces, chunk size 2, yields `[[1,2],[3,4],[5]]`. -/
theorem readFixedChunkSize_spec_witness :
    (readFixedChunkSize [[1, 2, 3], [4, 5]] 2).flatten = [1, 2, 3, 4, 5] ∧
      readFixedChunkSize [[1, 2, 3], [4, 5]] 2 ≠ [] ∧
      ((readFixedChunkSize [[1, 2, 3], [4, 5]] 2).getLastD []).length = 1 := by
  have hs := readFixedChunkSize_spec [[1, 2, 3], [4, 5]] 2 (by decide)
  have hlast := hs.2.2.2.2 (by decide)
  refine ⟨hs.1.trans (by decide), hlast.1, ?_⟩
  rw [hlast.2]
  decide

/-- `getFileSizeMB` (src/index.ts:82-84): the file size in bytes divided by
1024*1024.  The JS double division by this power of two is exact for any
realistic size (below 2^53), so `Rat` models it faithfully. -/
def getFileSizeMB (sizeBytes : Nat) : Rat :=
  (sizeBytes : Rat) / (1024 * 1024)

/-- The two upload handlers the driver can pick
(`uploadMultiPart` / `putObject`, src/index.ts:111). -/
inductive UploadPath
  | multipart
  | singleShot
deriving DecidableEq, Repr

/-- The driver's per-file dispatch
(src/index.ts:111: `fileMB > config.multiPartSize ? uploadMultiPart : putObject`),
with `multiPartSize` the configured threshold in MB (an `Int`, being a
`parseInt` result). -/
def selectUploadPath (sizeBytes : Nat) (multiPartSize : Int) : UploadPath :=
  if getFileSizeMB sizeBytes > (multiPartSize : Rat) then .multipart else .singleShot

/-- C5: a file goes to the multipart orchestrator exactly when its size in
MB is strictly greater than the threshold — equivalently, when its byte
size exceeds `multiPartSize * 1024 * 1024` — and a file exactly at the
threshold goes to the single-shot uploader. -/
theorem selectUploadPath_spec :
    (∀ (sizeBytes : Nat) (multiPartSize : Int),
        selectUploadPath sizeBytes multiPartSize = .multipart ↔
          (sizeBytes : Int) > multiPartSize * (1024 * 1024)) ∧
    (∀ thresholdMB : Nat,
        selectUploadPath (thresholdMB * (1024 * 1024)) (thresholdMB : Int) =
          .singleShot) := by
  have key : ∀ (sizeBytes : Nat) (multiPartSize : Int),
      selectUploadPath sizeBytes multiPartSize = .multipart ↔
        (sizeBytes : Int) > multiPartSize * (1024 * 1024) := by
    intro s t
    unfold selectUploadPath getFileSizeMB
    have h1024 : (0 : Rat) < 1024 * 1024 := by norm_num
    constructor
    · intro hsel
      by_contra hgt
      rw [if_neg] at hsel
      · exact absurd hsel (by simp)
      · push_neg
        rw [div_le_iff₀ h1024]
        push_neg at hgt
        have : (s : Rat) ≤ (t : Rat) * (1024 * 1024) := by
          exact_mod_cast hgt
        linarith
    · intro hgt
      rw [if_pos]
      rw [gt_iff_lt, lt_div_iff₀ h1024]
      have : (t : Rat) * (1024 * 1024) < (s : Rat) := by
        exact_mod_cast hgt
      linarith
  refine ⟨key, ?_⟩
  intro tn
  have hiff := key (tn * (1024 * 1024)) (tn : Int)
  cases hsel : selectUploadPath (tn * (1024 * 1024)) (tn : Int) with
  | multipart =>
    have := hiff.mp hsel
    push_cast at this
    omega
  | singleShot => rfl

/-- Outcome of one file's upload attempt as the driver's `catch` block
distinguishes them (src/index.ts:114-124): a successful upload returning a
URL; an error carrying S3 `$metadata` with its (possibly absent) HTTP
status code; or a plain error without `$metadata` — the kind
`uploadMultiPart` throws on retry exhaustion. -/
inductive UploadOutcome
  | success (url : Nat)
  | s3error (httpStatusCode : Option Int)
  | plainError
deriving DecidableEq, Repr

/-- The driver's per-file loop (`run`, src/index.ts:97-125), with files
named by `Nat` and the upload call abstracted into an outcome oracle.
The list of files is the (post-`.gitkeep`-filter) enumeration; `urls` is
the accumulated result map.  An error with `$metadata` and status 412 is
swallowed and the loop continues with no entry recorded; every other
error is rethrown, ending the loop. -/
def runFilesLoop (outcome : Nat → UploadOutcome) :
    List Nat → List (Nat × Nat) → Except UploadOutcome (List (Nat × Nat))
  | [], urls => .ok urls
  | f :: rest, urls =>
    match outcome f with
    | .success url => runFilesLoop outcome rest (urls ++ [(f, url)])
    | .s3error st =>
      if st = some 412 then runFilesLoop outcome rest urls
      else .error (.s3error st)
    | .plainError => .error .plainError

/-- C6: a store error with HTTP status 412 is the only failure the
per-file loop recovers from — the file is skipped with no result-map
entry and the loop continues — while an S3 error with any other status,
or a plain error (such as multipart retry exhaustion), stops the run at
that file with later files never uploaded; consequently a run that ends
in `.ok` saw only successes and 412 skips. -/
theorem runFilesLoop_spec (outcome : Nat → UploadOutcome) :
    (∀ (f : Nat) (rest : List Nat) (urls : List (Nat × Nat)),
        outcome f = .s3error (some 412) →
          runFilesLoop outcome (f :: rest) urls = runFilesLoop outcome rest urls) ∧
    (∀ (f : Nat) (rest : List Nat) (urls : List (Nat × Nat)) (st : Option Int),
        outcome f = .s3error st → st ≠ some 412 →
          runFilesLoop outcome (f :: rest) urls = .error (.s3error st)) ∧
    (∀ (f : Nat) (rest : List Nat) (urls : List (Nat × Nat)),
        outcome f = .plainError →
          runFilesLoop outcome (f :: rest) urls = .error .plainError) ∧
    (∀ (files : List Nat) (urls finalUrls : List (Nat × Nat)),
        runFilesLoop outcome files urls = .ok finalUrls →
          ∀ f ∈ files,
            (∃ u, outcome f = .success u) ∨ outcome f = .s3error (some 412)) := by
  refine ⟨?_, ?_, ?_, ?_⟩
  · intro f rest urls hf
    simp [runFilesLoop, hf]
  · intro f rest urls st hf hne
    simp [runFilesLoop, hf, hne]
  · intro f rest urls hf
    simp [runFilesLoop, hf]
  · intro files
    induction files with
    | nil => intro urls finalUrls _ f hf; simp at hf
    | cons g rest ih =>
      intro urls finalUrls hok f hf
      cases hout : outcome g with
      | success u =>
        simp only [runFilesLoop, hout] at hok
        rcases List.mem_cons.mp hf with hfg | hfr
        · subst hfg
          exact .inl ⟨u, hout⟩
        · exact ih _ _ hok f hfr
      | s3error st =>
        by_cases h412 : st = some 412
        · subst h412
          simp only [runFilesLoop, hout, if_pos] at hok
          rcases List.mem_cons.mp hf with hfg | hfr
          · subst hfg
            exact .inr hout
          · exact ih _ _ hok f hfr
        · simp only [runFilesLoop, hout] at hok
          rw [if_neg h412] at hok
          exact absurd hok (by simp)
      | plainError =>
        simp only [runFilesLoop, hout] at hok
        exact absurd hok (by simp)

/-- Witness for C6 at concrete inputs: under an oracle where file 0
succeeds, file 1 hits a 412, and file 2 hits a 500, the 412 is skipped
and the 500 stops the run. -/
theorem runFilesLoop_spec_witness :
    runFilesLoop
        (fun f => if f = 0 then .success 7
                  else if f = 1 then .s3error (some 412)
                  else .s3error (some 500)) [1, 0] [] = .ok [(0, 7)] ∧
    runFilesLoop
        (fun f => if f = 0 then .success 7
                  else if f = 1 then .s3error (some 412)
                  else .s3error (some 500)) [1, 2, 0] [] =
      .error (.s3error (some 500)) := by
  have h := runFilesLoop_spec
    (fun f => if f = 0 then .success 7
              else if f = 1 then .s3error (some 412)
              else .s3error (some 500))
  constructor
  · rw [h.1 1 [0] [] (by decide)]
    rfl
  · rw [h.1 1 [2, 0] [] (by decide)]
    exact h.2.1 2 [0] [] (some 500) (by decide) (by decide)

/-- JS `s.replace(pat, rep)` for plain-string patterns: replace the first
occurrence of `pat` in `s` (the occurrence at the lowest index) by `rep`,
or return `s` unchanged when `pat` does not occur.  Strings are lists of
characters. -/
def replaceFirst (pat rep : List Char) : List Char → List Char
  | [] => if pat.isPrefixOf ([] : List Char) then rep else []
  | c :: rest =>
    if pat.isPrefixOf (c :: rest) then rep ++ (c :: rest).drop pat.length
    else c :: replaceFirst pat rep rest

/-- The destination-key computation as written in the driver `run`
(src/index.ts:102-103): strip the first occurrence of `sourceDir` from the
file path, then `path.join` the destination prefix — or, when the
destination prefix is the empty string, the source directory — with it.
`join` abstracts Node's `path.join`. -/
def fileKeyRun (join : List Char → List Char → List Char)
    (sourceDir destinationDir file : List Char) : List Char :=
  join (if destinationDir ≠ [] then destinationDir else sourceDir)
    (replaceFirst sourceDir [] file)

/-- The same computation as duplicated in `uploadMultiPart`
(src/index.ts:132-133). -/
def fileKeyUploadMultiPart (join : List Char → List Char → List Char)
    (sourceDir destinationDir file : List Char) : List Char :=
  join (if destinationDir ≠ [] then destinationDir else sourceDir)
    (replaceFirst sourceDir [] file)

/-- The same computation as duplicated in `putObject`
(src/index.ts:211-212). -/
def fileKeyPutObject (join : List Char → List Char → List Char)
    (sourceDir destinationDir file : List Char) : List Char :=
  join (if destinationDir ≠ [] then destinationDir else sourceDir)
    (replaceFirst sourceDir [] file)

theorem replaceFirst_append_left (pat rep tail : List Char) :
    replaceFirst pat rep (pat ++ tail) = rep ++ tail := by
  have hpre : pat.isPrefixOf (pat ++ tail) = true := by
    rw [List.isPrefixOf_iff_prefix]
    exact List.prefix_append pat tail
  cases hpt : pat ++ tail with
  | nil =>
    have hpat : pat = [] := (List.append_eq_nil.mp hpt).1
    have htail : tail = [] := (List.append_eq_nil.mp hpt).2
    subst hpat
    subst htail
    simp [replaceFirst]
  | cons c rest =>
    rw [hpt] at hpre
    rw [replaceFirst, if_pos hpre, ← hpt, List.drop_left]

/-- C8: the three duplicated key computations (driver, `putObject`,
`uploadMultiPart`) agree on every input, so a file's destination key is
computed deterministically; and for any file discovered under the source
directory — a path of the form `sourceDir ++ rest` — the key is the
source-relative remainder joined to the destination prefix, falling back
to the source directory when the prefix is the empty string. -/
theorem fileKey_spec (join : List Char → List Char → List Char)
    (sourceDir destinationDir file : List Char) :
    (fileKeyRun join sourceDir destinationDir file =
        fileKeyPutObject join sourceDir destinationDir file ∧
      fileKeyRun join sourceDir destinationDir file =
        fileKeyUploadMultiPart join sourceDir destinationDir file) ∧
    (∀ rest : List Char, file = sourceDir ++ rest →
        fileKeyRun join sourceDir destinationDir file =
          join (if destinationDir ≠ [] then destinationDir else sourceDir) rest) := by
  refine ⟨⟨rfl, rfl⟩, ?_⟩
  intro rest hfile
  subst hfile
  unfold fileKeyRun
  rw [replaceFirst_append_left]
  simp

/-- Witness for C8 at a concrete input: source directory `./a`, empty
destination prefix, file `./a/x`; the key joins `./a` with `/x`. -/
theorem fileKey_spec_witness :
    fileKeyRun (fun a b => a ++ b) ['.', '/', 'a'] [] ['.', '/', 'a', '/', 'x'] =
      ['.', '/', 'a'] ++ ['/', 'x'] := by
  have h := (fileKey_spec (fun a b => a ++ b) ['.', '/', 'a'] []
    ['.', '/', 'a', '/', 'x']).2 ['/', 'x'] (by decide)
  rw [h]
  simp

/-- One item the `for await (const chunk of readFixedChunkSize(...))` loop
of `uploadMultiPart` (src/index.ts:157) receives: a chunk of bytes, or a
read failure thrown by the underlying stream at that point. -/
inductive ChunkEvent
  | data (bytes : List Nat)
  | readFail
deriving DecidableEq, Repr

/-- A `{ PartNumber, ETag }` record pushed into `multiPartMap.Parts`
(src/index.ts:172); ETags are named by `Nat`. -/
structure PartRecord where
  PartNumber : Nat
  ETag : Nat
deriving DecidableEq, Repr

/-- The object-store client as an oracle: whether the
create-multipart-session call succeeds, which upload-part attempts succeed
(per part number and 0-based attempt index, returning the ETag), and
whether the abort and completion calls succeed. -/
structure MPOracle where
  createOk : Bool
  attempt : Nat → Nat → Option Nat
  abortOk : Bool
  completeOk : Bool

/-- The error `uploadMultiPart` can propagate: a create-call failure, a
chunk-read failure, the abort call's own failure, the
`Failed to upload part N of file` error thrown after retry exhaustion
(src/index.ts:189), or a completion-call failure. -/
inductive MPError
  | createError
  | chunkReadError
  | abortCallError
  | partError (partNumber : Nat)
  | completeCallError
deriving DecidableEq, Repr

instance {ε α : Type} [DecidableEq ε] [DecidableEq α] :
    DecidableEq (Except ε α) := fun a b =>
  match a, b with
  | .ok x, .ok y => decidable_of_iff (x = y) (by simp)
  | .error x, .error y => decidable_of_iff (x = y) (by simp)
  | .ok _, .error _ => isFalse (fun h => Except.noConfusion h)
  | .error _, .ok _ => isFalse (fun h => Except.noConfusion h)

/-- The per-part retry loop of `uploadMultiPart` (src/index.ts:168-179):
`retries` starts at `0`; while `retries < config.maxTries`, send the part
— on success record the ETag and break, on failure increment `retries`,
log, back off, and loop.  Returns the recorded ETag (`none` when the loop
exits with retries exhausted — immediately when `maxTries <= 0`) and how
many upload-part send attempts were made. -/
def tryUploadPart (attempt : Nat → Option Nat) (maxTries : Int) (retries : Nat) :
    Option Nat × Nat :=
  if h : (retries : Int) < maxTries then
    match attempt retries with
    | some etag => (some etag, 1)
    | none =>
      let r := tryUploadPart attempt maxTries (retries + 1)
      (r.1, r.2 + 1)
  else (none, 0)
termination_by (maxTries - retries).toNat
decreasing_by simp_wf; omega

theorem tryUploadPart_pos {attempt : Nat → Option Nat} {maxTries : Int}
    {retries : Nat} (h : (retries : Int) < maxTries) :
    tryUploadPart attempt maxTries retries =
      (match attempt retries with
       | some etag => (some etag, 1)
       | none =>
         ((tryUploadPart attempt maxTries (retries + 1)).1,
          (tryUploadPart attempt maxTries (retries + 1)).2 + 1)) := by
  rw [tryUploadPart, dif_pos h]

theorem tryUploadPart_neg {attempt : Nat → Option Nat} {maxTries : Int}
    {retries : Nat} (h : ¬((retries : Int) < maxTries)) :
    tryUploadPart attempt maxTries retries = (none, 0) := by
  rw [tryUploadPart, dif_neg h]

/-- What the chunk loop of `uploadMultiPart` (src/index.ts:157-193)
produces: the accumulated `multiPartMap.Parts` on success or the error it
throws, the total number of upload-part send attempts, whether the
abort call was issued (the retries-exhausted branch, src/index.ts:180-188),
and whether that abort call succeeded. -/
structure LoopOut where
  result : Except MPError (List PartRecord)
  sends : Nat
  abortCalled : Bool
  abortSucceeded : Bool
deriving DecidableEq, Repr

/-- The chunk loop of `uploadMultiPart` (src/index.ts:155-193): for each
chunk, increment the part number, run the retry loop; on success push
`{PartNumber, ETag}` and continue; on exhaustion issue the abort call —
whose own failure propagates instead (it is awaited with no catch) — and
otherwise throw the part error.  A chunk-read failure propagates out of
the `for await` with no abort. -/
def uploadLoop (oracle : MPOracle) (maxTries : Int) :
    List ChunkEvent → Nat → List PartRecord → Nat → LoopOut
  | [], _, parts, sends => ⟨.ok parts, sends, false, false⟩
  | .readFail :: _, _, _, sends => ⟨.error .chunkReadError, sends, false, false⟩
  | .data _ :: rest, partNumber, parts, sends =>
    let pn := partNumber + 1
    let r := tryUploadPart (oracle.attempt pn) maxTries 0
    match r.1 with
    | some etag =>
      uploadLoop oracle maxTries rest pn (parts ++ [⟨pn, etag⟩]) (sends + r.2)
    | none =>
      if oracle.abortOk then ⟨.error (.partError pn), sends + r.2, true, true⟩
      else ⟨.error .abortCallError, sends + r.2, true, false⟩

/-- The outcome of one `uploadMultiPart` invocation: what it returns or
throws, how many upload-part sends happened, whether the completion call
was issued and succeeded, whether the abort call was issued and succeeded,
and the part list handed to the completion call (meaningful when
`completeCalled`). -/
structure MPRun where
  result : Except MPError Unit
  sends : Nat
  completeCalled : Bool
  completeSucceeded : Bool
  abortCalled : Bool
  abortSucceeded : Bool
  completeParts : List PartRecord
deriving DecidableEq, Repr

/-- `uploadMultiPart` (src/index.ts:130-207): create the session, run the
chunk loop, and — when the loop finished all chunks — issue the completion
call with the accumulated parts; the signed-URL result is collapsed to
`Unit`.  No abort is attempted when the create, chunk-read, or completion
call fails. -/
def uploadMultiPart (oracle : MPOracle) (events : List ChunkEvent)
    (maxTries : Int) : MPRun :=
  if oracle.createOk then
    let lo := uploadLoop oracle maxTries events 0 [] 0
    match lo.result with
    | .error e => ⟨.error e, lo.sends, false, false, lo.abortCalled, lo.abortSucceeded, []⟩
    | .ok parts =>
      if oracle.completeOk then ⟨.ok (), lo.sends, true, true, false, false, parts⟩
      else ⟨.error .completeCallError, lo.sends, true, false, false, false, parts⟩
  else ⟨.error .createError, 0, false, false, false, false, []⟩

/-- The `maxTries` configuration value (src/index.ts:35):
`parseInt(getInput("max-tries")) || 5` — `parseInt` yields an integer or
`NaN` (modelled as `none`), and `|| 5` replaces the two falsy numbers,
`NaN` and `0`, by the default `5`. -/
def maxTriesConfig (parsed : Option Int) : Int :=
  match parsed with
  | none => 5
  | some v => if v = 0 then 5 else v

theorem tryUploadPart_exhaust_aux (attempt : Nat → Option Nat) (maxTries : Int)
    (hfail : ∀ t : Nat, (t : Int) < maxTries → attempt t = none) :
    ∀ (fuel r : Nat), (maxTries - r).toNat ≤ fuel →
      tryUploadPart attempt maxTries r = (none, (maxTries - r).toNat) := by
  intro fuel
  induction fuel with
  | zero =>
    intro r hr
    have hnl : ¬((r : Int) < maxTries) := by omega
    rw [tryUploadPart_neg hnl]
    have : (maxTries - r).toNat = 0 := by omega
    rw [this]
  | succ n ih =>
    intro r hr
    by_cases hlt : (r : Int) < maxTries
    · rw [tryUploadPart_pos hlt, hfail r hlt, ih (r + 1) (by omega)]
      simp only [Prod.mk.injEq]
      refine ⟨trivial, ?_⟩
      omega
    · rw [tryUploadPart_neg hlt]
      have : (maxTries - r).toNat = 0 := by omega
      rw [this]

theorem tryUploadPart_exhaust (attempt : Nat → Option Nat) (maxTries : Int)
    (hfail : ∀ t : Nat, (t : Int) < maxTries → attempt t = none) :
    tryUploadPart attempt maxTries 0 = (none, maxTries.toNat) := by
  have := tryUploadPart_exhaust_aux attempt maxTries hfail (maxTries - 0).toNat 0
    (le_refl _)
  simpa using this

theorem tryUploadPart_succeeds_aux (attempt : Nat → Option Nat) (maxTries : Int)
    (k e : Nat) (hfail : ∀ t : Nat, t < k → attempt t = none)
    (hsucc : attempt k = some e) (hk : (k : Int) < maxTries) :
    ∀ (fuel r : Nat), k - r ≤ fuel → r ≤ k →
      tryUploadPart attempt maxTries r = (some e, k + 1 - r) := by
  intro fuel
  induction fuel with
  | zero =>
    intro r hfu hrk
    have hreq : r = k := by omega
    rw [hreq, tryUploadPart_pos hk, hsucc]
    have h1 : k + 1 - k = 1 := by omega
    rw [h1]
  | succ n ih =>
    intro r hfu hrk
    by_cases hreq : r = k
    · rw [hreq, tryUploadPart_pos hk, hsucc]
      have h1 : k + 1 - k = 1 := by omega
      rw [h1]
    · have hrlt : r < k := by omega
      have hlt : (r : Int) < maxTries := by
        have hrk2 : (r : Int) < (k : Int) := by exact_mod_cast hrlt
        omega
      rw [tryUploadPart_pos hlt, hfail r hrlt, ih (r + 1) (by omega) (by omega)]
      simp only [Prod.mk.injEq]
      refine ⟨trivial, ?_⟩
      omega

theorem tryUploadPart_succeeds (attempt : Nat → Option Nat) (maxTries : Int)
    (k e : Nat) (hfail : ∀ t : Nat, t < k → attempt t = none)
    (hsucc : attempt k = some e) (hk : (k : Int) < maxTries) :
    tryUploadPart attempt maxTries 0 = (some e, k + 1) := by
  have := tryUploadPart_succeeds_aux attempt maxTries k e hfail hsucc hk (k - 0) 0
    (le_refl _) (by omega)
  simpa using this

/-- Every output of the chunk loop falls into one of four shapes: all
chunks uploaded with no abort; a chunk-read failure with no abort; a part
error with a successful abort; or the abort call's own failure. -/
theorem uploadLoop_cases (oracle : MPOracle) (maxTries : Int) :
    ∀ (events : List ChunkEvent) (pn : Nat) (parts : List PartRecord) (sends : Nat),
      (∃ parts2,
        (uploadLoop oracle maxTries events pn parts sends).result = .ok parts2 ∧
        (uploadLoop oracle maxTries events pn parts sends).abortCalled = false ∧
        (uploadLoop oracle maxTries events pn parts sends).abortSucceeded = false) ∨
      ((uploadLoop oracle maxTries events pn parts sends).result =
          .error .chunkReadError ∧
        (uploadLoop oracle maxTries events pn parts sends).abortCalled = false ∧
        (uploadLoop oracle maxTries events pn parts sends).abortSucceeded = false) ∨
      (∃ p,
        (uploadLoop oracle maxTries events pn parts sends).result =
          .error (.partError p) ∧
        (uploadLoop oracle maxTries events pn parts sends).abortCalled = true ∧
        (uploadLoop oracle maxTries events pn parts sends).abortSucceeded = true) ∨
      ((uploadLoop oracle maxTries events pn parts sends).result =
          .error .abortCallError ∧
        (uploadLoop oracle maxTries events pn parts sends).abortCalled = true ∧
        (uploadLoop oracle maxTries events pn parts sends).abortSucceeded = false) := by
  intro events
  induction events with
  | nil =>
    intro pn parts sends
    exact .inl ⟨parts, rfl, rfl, rfl⟩
  | cons ev rest ih =>
    intro pn parts sends
    cases ev with
    | readFail => exact .inr (.inl ⟨rfl, rfl, rfl⟩)
    | data b =>
      cases htry : (tryUploadPart (oracle.attempt (pn + 1)) maxTries 0).1 with
      | some etag =>
        have hstep :
            uploadLoop oracle maxTries (.data b :: rest) pn parts sends =
              uploadLoop oracle maxTries rest (pn + 1) (parts ++ [⟨pn + 1, etag⟩])
                (sends + (tryUploadPart (oracle.attempt (pn + 1)) maxTries 0).2) := by
          simp only [uploadLoop, htry]
        rw [hstep]
        exact ih (pn + 1) (parts ++ [⟨pn + 1, etag⟩])
          (sends + (tryUploadPart (oracle.attempt (pn + 1)) maxTries 0).2)
      | none =>
        by_cases hab : oracle.abortOk = true
        · have hstep :
              uploadLoop oracle maxTries (.data b :: rest) pn parts sends =
                ⟨.error (.partError (pn + 1)),
                  sends + (tryUploadPart (oracle.attempt (pn + 1)) maxTries 0).2,
                  true, true⟩ := by
            simp [uploadLoop, htry, hab]
          rw [hstep]
          exact .inr (.inr (.inl ⟨pn + 1, rfl, rfl, rfl⟩))
        · have hab2 : oracle.abortOk = false := by
            cases h : oracle.abortOk
            · rfl
            · exact absurd h hab
          have hstep :
              uploadLoop oracle maxTries (.data b :: rest) pn parts sends =
                ⟨.error .abortCallError,
                  sends + (tryUploadPart (oracle.attempt (pn + 1)) maxTries 0).2,
                  true, false⟩ := by
            simp [uploadLoop, htry, hab2]
          rw [hstep]
          exact .inr (.inr (.inr ⟨rfl, rfl, rfl⟩))

theorem uploadLoop_ok_parts (oracle : MPOracle) (maxTries : Int) :
    ∀ (events : List ChunkEvent) (pn : Nat) (parts parts2 : List PartRecord)
      (sends : Nat),
      (uploadLoop oracle maxTries events pn parts sends).result = .ok parts2 →
      parts2.map PartRecord.PartNumber =
        parts.map PartRecord.PartNumber ++ List.range' (pn + 1) events.length := by
  intro events
  induction events with
  | nil =>
    intro pn parts parts2 sends hok
    simp only [uploadLoop, Except.ok.injEq] at hok
    subst hok
    simp
  | cons ev rest ih =>
    intro pn parts parts2 sends hok
    cases ev with
    | readFail => simp [uploadLoop] at hok
    | data b =>
      cases htry : (tryUploadPart (oracle.attempt (pn + 1)) maxTries 0).1 with
      | some etag =>
        have hstep :
            uploadLoop oracle maxTries (.data b :: rest) pn parts sends =
              uploadLoop oracle maxTries rest (pn + 1) (parts ++ [⟨pn + 1, etag⟩])
                (sends + (tryUploadPart (oracle.attempt (pn + 1)) maxTries 0).2) := by
          simp only [uploadLoop, htry]
        rw [hstep] at hok
        have hmap := ih (pn + 1) (parts ++ [⟨pn + 1, etag⟩]) parts2 _ hok
        rw [hmap]
        simp [List.range'_succ]
      | none =>
        by_cases hab : oracle.abortOk = true
        · have hstep :
              uploadLoop oracle maxTries (.data b :: rest) pn parts sends =
                ⟨.error (.partError (pn + 1)),
                  sends + (tryUploadPart (oracle.attempt (pn + 1)) maxTries 0).2,
                  true, true⟩ := by
            simp [uploadLoop, htry, hab]
          rw [hstep] at hok
          simp at hok
        · have hab2 : oracle.abortOk = false := by
            cases h : oracle.abortOk
            · rfl
            · exact absurd h hab
          have hstep :
              uploadLoop oracle maxTries (.data b :: rest) pn parts sends =
                ⟨.error .abortCallError,
                  sends + (tryUploadPart (oracle.attempt (pn + 1)) maxTries 0).2,
                  true, false⟩ := by
            simp [uploadLoop, htry, hab2]
          rw [hstep] at hok
          simp at hok

/-- C7: whenever `uploadMultiPart` reaches the completion call, the part
list it passes has exactly one record per chunk, with part numbers
forming the contiguous sequence 1..k in chunk order — no gaps, no
duplicates. -/
theorem uploadMultiPart_completion_parts (oracle : MPOracle)
    (events : List ChunkEvent) (maxTries : Int) :
    (uploadMultiPart oracle events maxTries).completeCalled = true →
      (uploadMultiPart oracle events maxTries).completeParts.map
          PartRecord.PartNumber = List.range' 1 events.length ∧
      (uploadMultiPart oracle events maxTries).completeParts.length =
          events.length ∧
      ((uploadMultiPart oracle events maxTries).completeParts.map
          PartRecord.PartNumber).Nodup := by
  intro hcc
  by_cases hcr : oracle.createOk = true
  · cases hres : (uploadLoop oracle maxTries events 0 [] 0).result with
    | error e =>
      have hfalse : (uploadMultiPart oracle events maxTries).completeCalled = false := by
        simp [uploadMultiPart, hcr, hres]
      rw [hfalse] at hcc
      cases hcc
    | ok parts =>
      have hparts : (uploadMultiPart oracle events maxTries).completeParts = parts := by
        by_cases hco : oracle.completeOk = true
        · simp [uploadMultiPart, hcr, hres, hco]
        · have hcof : oracle.completeOk = false := by
            cases h2 : oracle.completeOk
            · rfl
            · exact absurd h2 hco
          simp [uploadMultiPart, hcr, hres, hcof]
      have hmap := uploadLoop_ok_parts oracle maxTries events 0 [] parts 0 hres
      simp only [List.map_nil, List.nil_append, Nat.zero_add] at hmap
      rw [hparts]
      refine ⟨hmap, ?_, ?_⟩
      · have hlen := congrArg List.length hmap
        simpa using hlen
      · rw [hmap]
        exact List.nodup_range' 1 events.length
  · have hcf : oracle.createOk = false := by
      cases h2 : oracle.createOk
      · rfl
      · exact absurd h2 hcr
    have hfalse : (uploadMultiPart oracle events maxTries).completeCalled = false := by
      simp [uploadMultiPart, hcf]
    rw [hfalse] at hcc
    cases hcc

/-- Witness for C7 at a concrete input: three chunks, every attempt
succeeding, completion reached with part numbers exactly [1, 2, 3]. -/
theorem uploadMultiPart_completion_parts_witness :
    (uploadMultiPart ⟨true, fun _ _ => some 5, true, true⟩
          [.data [1], .data [2], .data [3]] 2).completeParts.map
        PartRecord.PartNumber = List.range' 1 3 ∧
      (uploadMultiPart ⟨true, fun _ _ => some 5, true, true⟩
          [.data [1], .data [2], .data [3]] 2).completeParts.length = 3 := by
  have ht : tryUploadPart (fun _ => some 5) 2 0 = (some 5, 1) :=
    tryUploadPart_succeeds _ 2 0 5 (fun t ht => absurd ht (by omega)) rfl (by omega)
  have hloop : uploadLoop ⟨true, fun _ _ => some 5, true, true⟩ 2
      [.data [1], .data [2], .data [3]] 0 [] 0 =
      ⟨.ok [⟨1, 5⟩, ⟨2, 5⟩, ⟨3, 5⟩], 3, false, false⟩ := by
    simp [uploadLoop, ht]
  have hcc : (uploadMultiPart ⟨true, fun _ _ => some 5, true, true⟩
      [.data [1], .data [2], .data [3]] 2).completeCalled = true := by
    simp [uploadMultiPart, hloop]
  have h := uploadMultiPart_completion_parts
    ⟨true, fun _ _ => some 5, true, true⟩ [.data [1], .data [2], .data [3]] 2 hcc
  exact ⟨h.1, h.2.1⟩

/-- C1 (amended): `uploadMultiPart` never leaves the session both
completed and aborted; on the success path it is completed and not
aborted, and on the retries-exhausted path it is aborted and not
completed; but when the chunk read, the completion call, or the abort
call itself fails, the session is left in neither state. -/
theorem uploadMultiPart_session_state (oracle : MPOracle)
    (events : List ChunkEvent) (maxTries : Int) :
    ¬((uploadMultiPart oracle events maxTries).completeSucceeded = true ∧
        (uploadMultiPart oracle events maxTries).abortSucceeded = true) ∧
    ((uploadMultiPart oracle events maxTries).result = .ok () →
        (uploadMultiPart oracle events maxTries).completeSucceeded = true ∧
        (uploadMultiPart oracle events maxTries).abortSucceeded = false) ∧
    (∀ p : Nat,
        (uploadMultiPart oracle events maxTries).result = .error (.partError p) →
        (uploadMultiPart oracle events maxTries).abortSucceeded = true ∧
        (uploadMultiPart oracle events maxTries).completeSucceeded = false) ∧
    ((uploadMultiPart oracle events maxTries).result = .error .chunkReadError ∨
        (uploadMultiPart oracle events maxTries).result = .error .completeCallError ∨
        (uploadMultiPart oracle events maxTries).result = .error .abortCallError →
      (uploadMultiPart oracle events maxTries).completeSucceeded = false ∧
        (uploadMultiPart oracle events maxTries).abortSucceeded = false) := by
  by_cases hcr : oracle.createOk = true
  · rcases uploadLoop_cases oracle maxTries events 0 [] 0 with
      ⟨p2, hres, hac, has⟩ | ⟨hres, hac, has⟩ | ⟨p, hres, hac, has⟩ |
      ⟨hres, hac, has⟩
    · by_cases hco : oracle.completeOk = true
      · simp [uploadMultiPart, hcr, hres, hco]
      · have hcof : oracle.completeOk = false := by
          cases h2 : oracle.completeOk
          · rfl
          · exact absurd h2 hco
        simp [uploadMultiPart, hcr, hres, hcof]
    · simp [uploadMultiPart, hcr, hres, hac, has]
    · simp [uploadMultiPart, hcr, hres, hac, has]
    · simp [uploadMultiPart, hcr, hres, hac, has]
  · have hcf : oracle.createOk = false := by
      cases h2 : oracle.createOk
      · rfl
      · exact absurd h2 hcr
    simp [uploadMultiPart, hcf]

/-- C1 counterexample: with the create call succeeding, every part upload
succeeding, and the completion call failing, `uploadMultiPart` throws the
completion error while the session is neither completed nor aborted (the
abort call is never even issued) — refuting "completed XOR aborted, never
neither, also when the completion call fails". -/
theorem uploadMultiPart_xor_counterexample :
    (uploadMultiPart ⟨true, fun _ _ => some 1, true, false⟩
        [.data [0]] 1).result = .error .completeCallError ∧
    (uploadMultiPart ⟨true, fun _ _ => some 1, true, false⟩
        [.data [0]] 1).completeSucceeded = false ∧
    (uploadMultiPart ⟨true, fun _ _ => some 1, true, false⟩
        [.data [0]] 1).abortSucceeded = false ∧
    (uploadMultiPart ⟨true, fun _ _ => some 1, true, false⟩
        [.data [0]] 1).abortCalled = false := by
  have ht : tryUploadPart (fun _ => some 1) 1 0 = (some 1, 1) :=
    tryUploadPart_succeeds _ 1 0 1 (fun t ht => absurd ht (by omega)) rfl (by omega)
  have hloop : uploadLoop ⟨true, fun _ _ => some 1, true, false⟩ 1
      [.data [0]] 0 [] 0 = ⟨.ok [⟨1, 1⟩], 1, false, false⟩ := by
    simp [uploadLoop, ht]
  refine ⟨?_, ?_, ?_, ?_⟩ <;> simp [uploadMultiPart, hloop]

/-- Witness for C1 (amended) at a concrete input: a part exhausting its
single try with a successful abort leaves the session aborted and not
completed. -/
theorem uploadMultiPart_session_state_witness :
    (uploadMultiPart ⟨true, fun _ _ => none, true, true⟩
        [.data [0]] 1).abortSucceeded = true ∧
    (uploadMultiPart ⟨true, fun _ _ => none, true, true⟩
        [.data [0]] 1).completeSucceeded = false := by
  have ht : tryUploadPart (fun _ => none) 1 0 = (none, 1) :=
    tryUploadPart_exhaust _ 1 (fun t ht => rfl)
  have hloop : uploadLoop ⟨true, fun _ _ => none, true, true⟩ 1
      [.data [0]] 0 [] 0 = ⟨.error (.partError 1), 1, true, true⟩ := by
    simp [uploadLoop, ht]
  have hres : (uploadMultiPart ⟨true, fun _ _ => none, true, true⟩
      [.data [0]] 1).result = .error (.partError 1) := by
    simp [uploadMultiPart, hloop]
  exact (uploadMultiPart_session_state ⟨true, fun _ _ => none, true, true⟩
    [.data [0]] 1).2.2.1 1 hres

/-- C2 (amended): when a part exhausts its retries, the error the loop
propagates is the part-upload failure naming the part number only when
the abort call succeeds; when the abort call itself fails, the abort
call's error propagates instead, replacing the triggering error — and
`uploadMultiPart` forwards loop errors to its caller unchanged. -/
theorem uploadMultiPart_abort_error_propagation :
    (∀ (oracle : MPOracle) (maxTries : Int) (b : List Nat)
        (rest : List ChunkEvent) (pn : Nat) (parts : List PartRecord)
        (sends : Nat),
      (tryUploadPart (oracle.attempt (pn + 1)) maxTries 0).1 = none →
      (uploadLoop oracle maxTries (.data b :: rest) pn parts sends).result =
        (if oracle.abortOk = true then Except.error (MPError.partError (pn + 1))
         else Except.error MPError.abortCallError)) ∧
    (∀ (oracle : MPOracle) (events : List ChunkEvent) (maxTries : Int)
        (e : MPError),
      oracle.createOk = true →
      (uploadLoop oracle maxTries events 0 [] 0).result = .error e →
      (uploadMultiPart oracle events maxTries).result = .error e) := by
  constructor
  · intro oracle maxTries b rest pn parts sends htry
    by_cases hab : oracle.abortOk = true
    · simp [uploadLoop, htry, hab]
    · have hab2 : oracle.abortOk = false := by
        cases h2 : oracle.abortOk
        · rfl
        · exact absurd h2 hab
      simp [uploadLoop, htry, hab2]
  · intro oracle events maxTries e hcr hres
    simp [uploadMultiPart, hcr, hres]

/-- C2 counterexample: a part fails its only try and the abort call also
fails; the error `uploadMultiPart` propagates is the abort call's error,
not the part-upload failure naming part 1 — the abort failure masks the
triggering error, refuting the claim. -/
theorem uploadMultiPart_abort_masks_counterexample :
    (uploadMultiPart ⟨true, fun _ _ => none, false, true⟩
        [.data [0]] 1).result = .error .abortCallError ∧
    (uploadMultiPart ⟨true, fun _ _ => none, false, true⟩
        [.data [0]] 1).result ≠ .error (.partError 1) := by
  have ht : tryUploadPart (fun _ => none) 1 0 = (none, 1) :=
    tryUploadPart_exhaust _ 1 (fun t ht => rfl)
  have hloop : uploadLoop ⟨true, fun _ _ => none, false, true⟩ 1
      [.data [0]] 0 [] 0 = ⟨.error .abortCallError, 1, true, false⟩ := by
    simp [uploadLoop, ht]
  have hres : (uploadMultiPart ⟨true, fun _ _ => none, false, true⟩
      [.data [0]] 1).result = .error .abortCallError := by
    simp [uploadMultiPart, hloop]
  refine ⟨hres, ?_⟩
  rw [hres]
  simp

/-- Witness for C2 (amended) at a concrete input: with a succeeding abort
call, the propagated error is the part failure naming part 1. -/
theorem uploadMultiPart_abort_error_propagation_witness :
    (uploadLoop ⟨true, fun _ _ => none, true, true⟩ 1
        [.data [0]] 0 [] 0).result = .error (.partError 1) := by
  have ht : tryUploadPart (fun _ => none) 1 0 = (none, 1) :=
    tryUploadPart_exhaust _ 1 (fun t ht => rfl)
  have h := uploadMultiPart_abort_error_propagation.1
    ⟨true, fun _ _ => none, true, true⟩ 1 [0] [] 0 [] 0 (by simp [ht])
  simpa using h

/-- C3: for a part with retry limit `maxTries >= 1`: if its upload-part
call fails exactly `maxTries - 1` times and then succeeds, the loop
records `{partNumber, eTag}` for it (after exactly `maxTries` send
attempts) and continues with the remaining chunks, issuing no abort; if
it fails all `maxTries` times and the abort call (here assumed to
succeed, see the abort-failure analysis) goes through, the session is
aborted, the fatal error naming the part number is thrown, and the
remaining chunks are never processed — the outcome is the same whatever
`rest` holds. -/
theorem uploadMultiPart_retry_spec (oracle : MPOracle) (maxTries : Int)
    (h1 : 1 ≤ maxTries) (pn : Nat) (b : List Nat) (rest : List ChunkEvent)
    (parts : List PartRecord) (sends : Nat) :
    (∀ e : Nat,
      (∀ t : Nat, (t : Int) < maxTries - 1 → oracle.attempt (pn + 1) t = none) →
      oracle.attempt (pn + 1) ((maxTries - 1).toNat) = some e →
      uploadLoop oracle maxTries (.data b :: rest) pn parts sends =
        uploadLoop oracle maxTries rest (pn + 1) (parts ++ [⟨pn + 1, e⟩])
          (sends + maxTries.toNat)) ∧
    ((∀ t : Nat, (t : Int) < maxTries → oracle.attempt (pn + 1) t = none) →
      oracle.abortOk = true →
      uploadLoop oracle maxTries (.data b :: rest) pn parts sends =
        ⟨.error (.partError (pn + 1)), sends + maxTries.toNat, true, true⟩) := by
  constructor
  · intro e hfail hsucc
    have htry : tryUploadPart (oracle.attempt (pn + 1)) maxTries 0 =
        (some e, (maxTries - 1).toNat + 1) := by
      apply tryUploadPart_succeeds
      · intro t ht
        apply hfail
        omega
      · exact hsucc
      · omega
    have hmt : (maxTries - 1).toNat + 1 = maxTries.toNat := by omega
    rw [hmt] at htry
    simp only [uploadLoop, htry]
  · intro hfail hab
    have htry : tryUploadPart (oracle.attempt (pn + 1)) maxTries 0 =
        (none, maxTries.toNat) := tryUploadPart_exhaust _ _ hfail
    simp [uploadLoop, htry, hab]

/-- Witness for C3 at concrete inputs: with `maxTries = 3`, a part
failing twice then succeeding yields the part record and the loop
continues; a part failing all three times aborts with the error naming
part 1 after exactly 3 sends. -/
theorem uploadMultiPart_retry_spec_witness :
    uploadLoop ⟨true, fun _ t => if t = 2 then some 9 else none, true, true⟩ 3
        [.data [7]] 0 [] 0 =
      uploadLoop ⟨true, fun _ t => if t = 2 then some 9 else none, true, true⟩ 3
        [] 1 [⟨1, 9⟩] 3 ∧
    uploadLoop ⟨true, fun _ _ => none, true, true⟩ 3 [.data [7]] 0 [] 0 =
      ⟨.error (.partError 1), 3, true, true⟩ := by
  constructor
  · have h := (uploadMultiPart_retry_spec
      ⟨true, fun _ t => if t = 2 then some 9 else none, true, true⟩ 3
      (by omega) 0 [7] [] [] 0).1 9
      (by
        intro t ht
        have ht2 : t ≠ 2 := by omega
        simp [ht2])
      (by simp)
    simpa using h
  · have h := (uploadMultiPart_retry_spec
      ⟨true, fun _ _ => none, true, true⟩ 3 (by omega) 0 [7] [] [] 0).2
      (fun t ht => rfl) rfl
    simpa using h

/-- C10: a negative `max-tries` input passes through
`parseInt(x) || 5` unchanged (only `NaN` and `0` fall back to the
default 5); and whenever `config.maxTries <= 0`, a file on the multipart
path fails on its very first chunk with zero upload-part send attempts —
the retry loop is never entered, the session is aborted, and the fatal
error names part 1. -/
theorem maxTries_nonpositive_spec :
    (∀ v : Int, v < 0 → maxTriesConfig (some v) = v) ∧
    (∀ (oracle : MPOracle) (maxTries : Int) (b : List Nat)
        (rest : List ChunkEvent),
      maxTries ≤ 0 → oracle.createOk = true → oracle.abortOk = true →
      uploadMultiPart oracle (.data b :: rest) maxTries =
        ⟨.error (.partError 1), 0, false, false, true, true, []⟩) := by
  constructor
  · intro v hv
    show (if v = 0 then (5 : Int) else v) = v
    rw [if_neg (by omega)]
  · intro oracle maxTries b rest hmt hcr hab
    have htry : tryUploadPart (oracle.attempt (0 + 1)) maxTries 0 = (none, 0) :=
      tryUploadPart_neg (by omega)
    have hloop : uploadLoop oracle maxTries (.data b :: rest) 0 [] 0 =
        ⟨.error (.partError 1), 0, true, true⟩ := by
      simp [uploadLoop, htry, hab]
    simp [uploadMultiPart, hcr, hloop]

/-- Witness for C10 at a concrete input: `max-tries` parsed as `-3` stays
`-3`, and a multipart upload under it fails naming part 1 with zero
sends, even though every send would have succeeded. -/
theorem maxTries_nonpositive_spec_witness :
    maxTriesConfig (some (-3)) = -3 ∧
      uploadMultiPart ⟨true, fun _ _ => some 1, true, true⟩ [.data [0]] (-3) =
        ⟨.error (.partError 1), 0, false, false, true, true, []⟩ := by
  constructor
  · exact maxTries_nonpositive_spec.1 (-3) (by omega)
  · exact maxTries_nonpositive_spec.2 ⟨true, fun _ _ => some 1, true, true⟩ (-3)
      [0] [] (by omega) rfl rfl

/-- Modelled from the spec: the concurrent-parts mode of the Part
Uploader / Multipart Orchestrator.  `src/types.ts` declares
`R2Config.multiPartConcurrent` and the repository's workflow exercises a
`multipart-concurrent` input, but `src/index.ts` contains only the
sequential chunk loop — the concurrent implementation is not under
`src/`.  Following spec sections 4.2, 4.3 and 5: each part task is a
small program that, before every send, first checks the shared
InterruptFlag (abandoning immediately when set), sends while attempts
remain, and on exhausting its retries sets the flag.  `attemptsUsed`
counts failed attempts so far. -/
inductive PartPC
  | checkFlag (attemptsUsed : Nat)
  | sending (attemptsUsed : Nat)
  | done
  | abandoned
  | exhausted
deriving DecidableEq, Repr

/-- Modelled from the spec: the shared state of one file's concurrent
multipart upload — the per-session InterruptFlag and the program counter
of every launched part task. -/
structure ConcState where
  flag : Bool
  parts : List PartPC
deriving DecidableEq, Repr

/-- Modelled from the spec: launching the concurrent upload of a file
with `numChunks` chunks — one part task per chunk, all launched without
waiting, bounded only by the number of chunks. -/
def initConc (numChunks : Nat) : ConcState :=
  ⟨false, List.replicate numChunks (.checkFlag 0)⟩

/-- Modelled from the spec: one transition of part task `i`.  At a
pre-attempt check with the flag set, the task abandons immediately
without uploading; with the flag clear it begins a send while attempts
remain, and otherwise exhausts and sets the flag (write-once).  A send in
flight completes according to `outcome` (success or one more failure).
Terminal tasks do not move. -/
def partStep (outcome : Nat → Nat → Bool) (maxTries : Nat) (i : Nat) :
    PartPC → Bool → PartPC × Bool
  | .checkFlag _, true => (.abandoned, true)
  | .checkFlag k, false =>
    if k < maxTries then (.sending k, false) else (.exhausted, true)
  | .sending k, flag =>
    ((if outcome i k then .done else .checkFlag (k + 1)), flag)
  | pc, flag => (pc, flag)

/-- Modelled from the spec: the scheduler fires one enabled part task;
any interleaving of task indices is possible. -/
def sysStep (outcome : Nat → Nat → Bool) (maxTries : Nat) (i : Nat)
    (s : ConcState) : ConcState :=
  match s.parts[i]? with
  | none => s
  | some pc =>
    ⟨(partStep outcome maxTries i pc s.flag).2,
     s.parts.set i (partStep outcome maxTries i pc s.flag).1⟩

/-- Modelled from the spec: running an arbitrary schedule (interleaving)
of part-task steps. -/
def runSched (outcome : Nat → Nat → Bool) (maxTries : Nat) :
    List Nat → ConcState → ConcState
  | [], s => s
  | i :: rest, s => runSched outcome maxTries rest (sysStep outcome maxTries i s)

theorem sysStep_flag_mono (outcome : Nat → Nat → Bool) (maxTries i : Nat)
    (s : ConcState) (h : s.flag = true) :
    (sysStep outcome maxTries i s).flag = true := by
  unfold sysStep
  cases hp : s.parts[i]? with
  | none => exact h
  | some pc =>
    cases pc with
    | checkFlag k => simp [partStep, h]
    | sending k => simp [partStep, h]
    | done => simp [partStep, h]
    | abandoned => simp [partStep, h]
    | exhausted => simp [partStep, h]

theorem runSched_flag_mono (outcome : Nat → Nat → Bool) (maxTries : Nat) :
    ∀ (sched : List Nat) (s : ConcState), s.flag = true →
      (runSched outcome maxTries sched s).flag = true := by
  intro sched
  induction sched with
  | nil => intro s h; exact h
  | cons i rest ih =>
    intro s h
    exact ih _ (sysStep_flag_mono outcome maxTries i s h)

/-- C9 (spec-modelled): when the concurrent-parts mode is selected, all
part uploads of one file are launched at once — one task per chunk,
bounded only by the chunk count, with every interleaving of them a
possible schedule; the shared per-session InterruptFlag is never cleared
along any schedule and can only be set by a part that exhausts its
retries; and every part attempt checks the flag before its send — a part
that observes the flag set abandons immediately without entering the
sending state, and while the flag is set no part begins a new send. -/
theorem concurrentParts_spec (outcome : Nat → Nat → Bool) (maxTries : Nat) :
    ((∀ n : Nat, (initConc n).parts.length = n ∧
        ∀ pc ∈ (initConc n).parts, pc = PartPC.checkFlag 0) ∧
      (∀ (sched : List Nat) (s : ConcState), s.flag = true →
        (runSched outcome maxTries sched s).flag = true)) ∧
    (∀ (i : Nat) (s : ConcState),
      (s.flag = false → (sysStep outcome maxTries i s).flag = true →
        ∃ k : Nat, s.parts[i]? = some (PartPC.checkFlag k) ∧ ¬k < maxTries ∧
          (sysStep outcome maxTries i s).parts[i]? = some PartPC.exhausted) ∧
      (∀ k : Nat, s.flag = true → s.parts[i]? = some (PartPC.checkFlag k) →
        (sysStep outcome maxTries i s).parts[i]? = some PartPC.abandoned) ∧
      (∀ (j k : Nat), s.flag = true →
        (sysStep outcome maxTries i s).parts[j]? = some (PartPC.sending k) →
        s.parts[j]? = some (PartPC.sending k))) := by
  refine ⟨⟨?_, runSched_flag_mono outcome maxTries⟩, ?_⟩
  · intro n
    constructor
    · simp [initConc]
    · intro pc hpc
      simp [initConc] at hpc
      exact hpc.2
  · intro i s
    refine ⟨?_, ?_, ?_⟩
    · intro hf hf2
      unfold sysStep at hf2 ⊢
      cases hp : s.parts[i]? with
      | none =>
        simp only [hp, hf] at hf2
        cases hf2
      | some pc =>
        simp only [hp] at hf2 ⊢
        have hlen : i < s.parts.length := by
          by_contra hge
          push_neg at hge
          rw [List.getElem?_eq_none hge] at hp
          cases hp
        cases pc with
        | checkFlag k =>
          by_cases hk : k < maxTries
          · simp [partStep, hf, hk] at hf2
          · refine ⟨k, rfl, hk, ?_⟩
            simp [partStep, hf, hk, List.getElem?_set_self hlen]
        | sending k => simp [partStep, hf] at hf2
        | done => simp [partStep, hf] at hf2
        | abandoned => simp [partStep, hf] at hf2
        | exhausted => simp [partStep, hf] at hf2
    · intro k hf hp
      have hlen : i < s.parts.length := by
        by_contra hge
        push_neg at hge
        rw [List.getElem?_eq_none hge] at hp
        cases hp
      unfold sysStep
      simp only [hp]
      simp [partStep, hf, List.getElem?_set_self hlen]
    · intro j k hf hsend
      unfold sysStep at hsend
      cases hp : s.parts[i]? with
      | none =>
        simp only [hp] at hsend
        exact hsend
      | some pc =>
        simp only [hp] at hsend
        by_cases hij : i = j
        · subst hij
          have hlen : i < s.parts.length := by
            by_contra hge
            push_neg at hge
            rw [List.getElem?_eq_none hge] at hp
            cases hp
          rw [List.getElem?_set_self hlen] at hsend
          cases pc with
          | checkFlag k2 => simp [partStep, hf] at hsend
          | sending k2 =>
            by_cases ho : outcome i k2 = true
            · simp [partStep, hf, ho] at hsend
            · have ho2 : outcome i k2 = false := by
                cases h2 : outcome i k2
                · rfl
                · exact absurd h2 ho
              simp [partStep, hf, ho2] at hsend
          | done => simp [partStep] at hsend
          | abandoned => simp [partStep] at hsend
          | exhausted => simp [partStep] at hsend
        · rw [List.getElem?_set_ne hij] at hsend
          exact hsend

/-- Witness for C9 at concrete inputs: a session of one part with the
flag already set — the part's check transitions it straight to abandoned;
and the flag survives any schedule. -/
theorem concurrentParts_spec_witness :
    (sysStep (fun _ _ => false) 5 0 ⟨true, [.checkFlag 0]⟩).parts[0]? =
        some PartPC.abandoned ∧
      (runSched (fun _ _ => false) 5 [0, 0, 0] ⟨true, [.checkFlag 0]⟩).flag =
        true := by
  constructor
  · exact ((concurrentParts_spec (fun _ _ => false) 5).2 0
      ⟨true, [.checkFlag 0]⟩).2.1 0 rfl rfl
  · exact (concurrentParts_spec (fun _ _ => false) 5).1.2 [0, 0, 0]
      ⟨true, [.checkFlag 0]⟩ rfl
